import Mathlib

/-!
Verification development for the client-side report renderer of
`html5ads-validator` (`static/app.js`).

The JavaScript source is shallowly embedded: JSON scalar values become the
inductive `JVal`, JS numbers become `JNum := Option ℚ` (`none` models `NaN`;
all values received from `res.json()` are finite, so infinities do not arise
in the modelled code paths), and the DOM containers touched by the code
become the explicit record `PageState`.  Markup is built as Lean `String`s
with exactly the template text of the source.
-/

/-- JSON-ish scalar value as seen by the renderer.  `vundef` models
`undefined` (an absent field), `vnull` models `null`. -/
inductive JVal where
  | vundef
  | vnull
  | vbool (b : Bool)
  | vnum (q : ℚ)
  | vstr (s : String)
deriving DecidableEq, Repr

/-- JS truthiness for the values of `JVal` (finite numbers only, so the
`NaN` case cannot arise here). -/
def truthy : JVal → Bool
  | .vundef => false
  | .vnull => false
  | .vbool b => b
  | .vnum q => decide (q ≠ 0)
  | .vstr s => decide (s ≠ "")

/-- JS `a || b`: `b` when `a` is falsy, else `a`. -/
def jsOr (a b : JVal) : JVal := if truthy a then a else b

/-- JS `a ?? b`: `b` when `a` is `null`/`undefined`, else `a`. -/
def jsNullish (a b : JVal) : JVal :=
  match a with
  | .vundef => b
  | .vnull => b
  | _ => a

/-- Fractional decimal digits of a rational in `[0,1)`, up to the given
fuel (17, the most digits JS ever prints for a double). -/
def fracDigitsAux : ℕ → ℚ → List Char
  | 0, _ => []
  | fuel + 1, r =>
    if r = 0 then []
    else
      let d := (⌊r * 10⌋).toNat
      Char.ofNat (48 + d) :: fracDigitsAux fuel (r * 10 - (d : ℚ))

/-- Decimal rendering of a nonnegative rational: exact for integers, up to
17 fractional digits otherwise (models JS number-to-string for the finite
values appearing in analysis documents). -/
def ratToStringNN (q : ℚ) : String :=
  let ip := (⌊q⌋).toNat
  let fr := q - (ip : ℚ)
  if fr = 0 then toString ip
  else toString ip ++ "." ++ ⟨fracDigitsAux 17 fr⟩

/-- Decimal rendering of a rational, modelling JS `String(number)` for the
finite numbers of an analysis document. -/
def ratToString (q : ℚ) : String :=
  if q < 0 then "-" ++ ratToStringNN (-q) else ratToStringNN q

/-- JS `String(v)` / template-literal interpolation of a scalar value. -/
def jsToString : JVal → String
  | .vundef => "undefined"
  | .vnull => "null"
  | .vbool b => cond b "true" "false"
  | .vnum q => ratToString q
  | .vstr s => s

/-- Per-character step of `esc`: the five HTML-significant characters map
to their entity forms, every other character is kept
(source: `app.js` line 108). -/
def escChar (c : Char) : List Char :=
  if c = '&' then "&amp;".data
  else if c = '<' then "&lt;".data
  else if c = '>' then "&gt;".data
  else if c = '"' then "&quot;".data
  else if c = '\'' then "&#39;".data
  else [c]

/-- Global per-character replacement performed by `esc`'s
`replace(/[&<>"']/g, ...)`. -/
def escList : List Char → List Char
  | [] => []
  | c :: r => escChar c ++ escList r

/-- The source's `esc(s)`: `String(s ?? '')` followed by replacement of the
five HTML-significant characters (`app.js` line 108). -/
def esc (v : JVal) : String :=
  ⟨escList (jsToString (jsNullish v (.vstr ""))).data⟩

/-- The five entity encodings that `esc` may emit. -/
def escEntities : List (List Char) :=
  ["&amp;".data, "&lt;".data, "&gt;".data, "&quot;".data, "&#39;".data]

/-- Character lists built only from entity encodings and characters that are
not HTML-significant: such a list contains no literal `& < > " '` outside an
entity encoding. -/
inductive OkOut : List Char → Prop
  | nil : OkOut []
  | ent (e l : List Char) : e ∈ escEntities → OkOut l → OkOut (e ++ l)
  | chr (c : Char) (l : List Char) :
      c ∉ ['&', '<', '>', '"', '\''] → OkOut l → OkOut (c :: l)

theorem okOut_escList (l : List Char) : OkOut (escList l) := by
  induction l with
  | nil => exact OkOut.nil
  | cons c r ih =>
    show OkOut (escChar c ++ escList r)
    by_cases h1 : c = '&'
    · exact OkOut.ent _ _ (by simp [escChar, h1, escEntities]) ih
    · by_cases h2 : c = '<'
      · exact OkOut.ent _ _ (by simp [escChar, h1, h2, escEntities]) ih
      · by_cases h3 : c = '>'
        · exact OkOut.ent _ _ (by simp [escChar, h1, h2, h3, escEntities]) ih
        · by_cases h4 : c = '"'
          · exact OkOut.ent _ _ (by simp [escChar, h1, h2, h3, h4, escEntities]) ih
          · by_cases h5 : c = '\''
            · exact OkOut.ent _ _
                (by simp [escChar, h1, h2, h3, h4, h5, escEntities]) ih
            · have : escChar c = [c] := by simp [escChar, h1, h2, h3, h4, h5]
              rw [this]
              exact OkOut.chr c _ (by simp [h1, h2, h3, h4, h5]) ih

/-- Helper: escaped output never contains a literal `<` (nor `>`, `"`, `'`). -/
theorem escList_no_lt (l : List Char) : '<' ∉ escList l := by
  induction l with
  | nil => simp [escList]
  | cons c r ih =>
    show '<' ∉ escChar c ++ escList r
    simp only [List.mem_append]
    rintro (h | h)
    · revert h
      unfold escChar
      split_ifs with h1 h2 h3 h4 h5 <;>
        first
          | decide
          | exact fun hh => h2 (List.mem_singleton.mp hh).symm
    · exact ih h

/-- Claim C3: `esc` renders `null`/`undefined` as the empty string, otherwise
stringifies the input and replaces each of the five characters `& < > " '`
by its entity form, and the output never contains one of those five
characters outside an entity encoding. -/
theorem c3_esc_spec :
    esc .vnull = "" ∧ esc .vundef = "" ∧
    (∀ v : JVal, (esc v).data = escList (jsToString (jsNullish v (.vstr ""))).data) ∧
    (∀ v : JVal, OkOut (esc v).data) := by
  refine ⟨rfl, rfl, fun v => rfl, fun v => ?_⟩
  exact okOut_escList _

/-- JS number: `none` models `NaN`, `some q` a finite value (infinities do
not arise in the modelled code paths, whose inputs are JSON values). -/
abbrev JNum := Option ℚ

/-- Numeric value of the decimal digits of a character list. -/
def digitsVal (l : List Char) : ℕ :=
  l.foldl (fun a c => a * 10 + (c.toNat - 48)) 0

/-- Parse an unsigned decimal literal (`digits`, `digits.digits`, `.digits`
or `digits.`), the forms JS `Number(string)` accepts for plain decimals.
Hex, exponent and `Infinity` forms are outside the modelled input space. -/
def parseDec (l : List Char) : Option ℚ :=
  let ip := l.takeWhile Char.isDigit
  let rest := l.dropWhile Char.isDigit
  match rest with
  | [] => if ip = [] then none else some (digitsVal ip : ℚ)
  | '.' :: fp =>
    if fp.all Char.isDigit ∧ (ip ≠ [] ∨ fp ≠ []) then
      some ((digitsVal ip : ℚ) + (digitsVal fp : ℚ) / 10 ^ fp.length)
    else none
  | _ => none

/-- Whitespace trimming performed by JS `Number(string)` before parsing. -/
def jsTrim (l : List Char) : List Char :=
  ((l.dropWhile Char.isWhitespace).reverse.dropWhile Char.isWhitespace).reverse

/-- JS `Number(string)`: trimmed empty string is `0`, otherwise an optional
sign followed by a decimal literal; anything else is `NaN` (`none`). -/
def strToNumber (s : String) : Option ℚ :=
  match jsTrim s.data with
  | [] => some 0
  | '+' :: r => parseDec r
  | '-' :: r => (parseDec r).map Neg.neg
  | r => parseDec r

/-- JS `Number(v)` for the scalar values of `JVal`. -/
def jsNumber : JVal → JNum
  | .vundef => none
  | .vnull => some 0
  | .vbool b => some (cond b 1 0)
  | .vnum q => some q
  | .vstr s => strToNumber s

/-- JS `a >= q` on a possibly-`NaN` left operand: every comparison with
`NaN` is false. -/
def jge (a : JNum) (q : ℚ) : Bool :=
  match a with
  | none => false
  | some x => decide (q ≤ x)

/-- JS division by a nonzero constant, propagating `NaN`.  Every use in the
embedded code divides by `1024` or by a chart maximum that is at least `1`,
so the zero-divisor case of `ℚ` division is never exercised. -/
def jdiv (a : JNum) (q : ℚ) : JNum :=
  match a with
  | none => none
  | some x => some (x / q)

/-- JS multiplication by a constant, propagating `NaN`. -/
def jmul (a : JNum) (q : ℚ) : JNum :=
  match a with
  | none => none
  | some x => some (x * q)

/-- Truncation of a rational toward zero (the integer part JS uses for
`ToInt32` and `toFixed`). -/
def ratTrunc (q : ℚ) : ℤ :=
  if 0 ≤ q then ⌊q⌋ else ⌈q⌉

/-- JS `n | 0` on a finite number: truncate toward zero, then wrap into the
signed 32-bit range. -/
def toInt32 (q : ℚ) : ℤ :=
  let r := ratTrunc q % 4294967296
  if r < 2147483648 then r else r - 4294967296

/-- JS `n | 0` on a possibly-`NaN` number: `NaN | 0 = 0`. -/
def jbitor0 (a : JNum) : ℤ :=
  match a with
  | none => 0
  | some q => toInt32 q

/-- JS `x.toFixed(1)` for a nonnegative finite number: round `10·x` half
away from zero and print one fractional digit. -/
def toFixed1NN (q : ℚ) : String :=
  let m := ⌊q * 10 + 1 / 2⌋
  toString (Int.tdiv m 10) ++ "." ++ toString (Int.emod m 10)

/-- JS `x.toFixed(1)` for a finite number. -/
def toFixed1 (q : ℚ) : String :=
  if q < 0 then "-" ++ toFixed1NN (-q) else toFixed1NN q

/-- JS `x.toFixed(1)` on a possibly-`NaN` number (`(NaN).toFixed(1)` is the
string `"NaN"`; this case is unreachable in `bytes`, whose loop leaves the
unit index at `0` for `NaN`). -/
def jtoFixed1 (a : JNum) : String :=
  match a with
  | none => "NaN"
  | some q => toFixed1 q

/-- Unit names of `bytes` (`u = ['B','KB','MB','GB']`). -/
def units : List String := ["B", "KB", "MB", "GB"]

/-- The `while(n>=1024 && i<u.length-1){n/=1024;i++}` loop of `bytes`: the
fuel argument is `(u.length-1) - i`, the number of iterations the bound
`i < u.length-1` still allows, so the loop is entered exactly while both
conditions hold. -/
def scaleLoop : ℕ → JNum → ℕ → JNum × ℕ
  | 0, n, i => (n, i)
  | fuel + 1, n, i =>
    if jge n 1024 then scaleLoop fuel (jdiv n 1024) (i + 1) else (n, i)

/-- Body of `bytes` after the `n==null||n===''` guard and the `Number(n)`
coercion (`app.js` line 109). -/
def bytesNum (x : JNum) : String :=
  let p := scaleLoop 3 x 0
  (if p.2 = 0 then toString (jbitor0 p.1) else jtoFixed1 p.1) ++ " " ++
    units.getD p.2 ""

/-- The source's `bytes(n)` (`app.js` line 109): empty string for
`null`/`undefined`/`''`, otherwise `Number(n)` scaled through the units. -/
def bytes (v : JVal) : String :=
  match v with
  | .vundef => ""
  | .vnull => ""
  | .vstr s => if s = "" then "" else bytesNum (strToNumber s)
  | v => bytesNum (jsNumber v)

/-- Unit index that the scaling loop of `bytes` reaches for a nonnegative
finite input. -/
def uIdx (q : ℚ) : ℕ :=
  if q < 1024 then 0
  else if q < 1024 ^ 2 then 1
  else if q < 1024 ^ 3 then 2
  else 3

theorem scaleLoop_eq (q : ℚ) :
    scaleLoop 3 (some q) 0 = (some (q / 1024 ^ uIdx q), uIdx q) := by
  by_cases h1 : q < 1024
  · have : jge (some q) 1024 = false := by
      simp [jge, decide_eq_false_iff_not, not_le, h1]
    simp [scaleLoop, this, uIdx, h1]
  · by_cases h2 : q < 1024 ^ 2
    · have e1 : jge (some q) 1024 = true := by
        simp [jge, decide_eq_true_eq]; linarith [not_lt.mp h1]
      have e2 : jge (some (q / 1024)) 1024 = false := by
        simp [jge, decide_eq_false_iff_not, not_le]
        rw [div_lt_iff₀ (by norm_num : (0:ℚ) < 1024)]
        calc q < 1024 ^ 2 := h2
        _ = 1024 * 1024 := by norm_num
      simp [scaleLoop, e1, e2, jdiv, uIdx, h1, h2]
    · by_cases h3 : q < 1024 ^ 3
      · have e1 : jge (some q) 1024 = true := by
          simp [jge, decide_eq_true_eq]; linarith [not_lt.mp h1]
        have e2 : jge (some (q / 1024)) 1024 = true := by
          simp [jge, decide_eq_true_eq]
          rw [le_div_iff₀ (by norm_num : (0:ℚ) < 1024)]
          have := not_lt.mp h2
          calc (1024:ℚ) * 1024 = 1024 ^ 2 := by norm_num
          _ ≤ q := this
        have e3 : jge (some (q / 1024 / 1024)) 1024 = false := by
          simp [jge, decide_eq_false_iff_not, not_le]
          rw [div_lt_iff₀ (by norm_num : (0:ℚ) < 1024),
            div_lt_iff₀ (by norm_num : (0:ℚ) < 1024)]
          calc q < 1024 ^ 3 := h3
          _ = 1024 * 1024 * 1024 := by norm_num
        simp only [scaleLoop, e1, e2, e3, jdiv, if_true, if_false]
        have : q / 1024 / 1024 = q / 1024 ^ uIdx q := by
          rw [div_div]
          simp [uIdx, h1, h2, h3]
          norm_num
        rw [this]
        simp [uIdx, h1, h2, h3]
      · have e1 : jge (some q) 1024 = true := by
          simp [jge, decide_eq_true_eq]; linarith [not_lt.mp h1]
        have e2 : jge (some (q / 1024)) 1024 = true := by
          simp [jge, decide_eq_true_eq]
          rw [le_div_iff₀ (by norm_num : (0:ℚ) < 1024)]
          have h2' := not_lt.mp h2
          have : (1024:ℚ) * 1024 = 1024 ^ 2 := by norm_num
          linarith
        have e3 : jge (some (q / 1024 / 1024)) 1024 = true := by
          simp [jge, decide_eq_true_eq]
          rw [le_div_iff₀ (by norm_num : (0:ℚ) < 1024),
            le_div_iff₀ (by norm_num : (0:ℚ) < 1024)]
          have h3' := not_lt.mp h3
          have : (1024:ℚ) * 1024 * 1024 = 1024 ^ 3 := by norm_num
          linarith
        simp only [scaleLoop, e1, e2, e3, jdiv, if_true]
        have : q / 1024 / 1024 / 1024 = q / 1024 ^ uIdx q := by
          rw [div_div, div_div]
          simp [uIdx, h1, h2, h3]
          norm_num
        rw [this]
        simp [uIdx, h1, h2, h3]

theorem uIdx_mono (q q' : ℚ) (h : q ≤ q') : uIdx q ≤ uIdx q' := by
  unfold uIdx
  split_ifs
  all_goals try norm_num
  all_goals exfalso
  all_goals linarith

theorem toInt32_of_small (q : ℚ) (h0 : 0 ≤ q) (h1 : q < 1024) :
    toInt32 q = ⌊q⌋ := by
  have ht : ratTrunc q = ⌊q⌋ := by simp [ratTrunc, h0]
  have hf0 : (0:ℤ) ≤ ⌊q⌋ := Int.floor_nonneg.mpr h0
  have hfs : ⌊q⌋ < 2147483648 := by
    apply Int.floor_lt.mpr
    push_cast
    linarith
  have hfl : ⌊q⌋ < 4294967296 := lt_trans hfs (by norm_num)
  simp only [toInt32, ht]
  rw [Int.emod_eq_of_lt hf0 hfl]
  simp [hfs]

/-- Claim C4: `bytes` returns the empty string for `null`/`undefined`/empty
input, maps `0` to `"0 B"`, and for every nonnegative finite number divides
by `1024` while the value is at least `1024` and a larger unit remains
(so the displayed value is `n / 1024 ^ i` at unit index `i`), printing the
base unit truncated toward zero and any scaled unit with one decimal place;
the displayed unit index is monotonically non-decreasing in the input. -/
theorem c4_formatBytes_spec :
    bytes .vnull = "" ∧ bytes .vundef = "" ∧ bytes (.vstr "") = "" ∧
    bytes (.vnum 0) = "0 B" ∧
    (∀ q : ℚ, 0 ≤ q → bytes (.vnum q) =
      (if uIdx q = 0 then toString (toInt32 q)
       else toFixed1 (q / 1024 ^ uIdx q)) ++ " " ++ units.getD (uIdx q) "") ∧
    (∀ q : ℚ, 0 ≤ q → q < 1024 → toInt32 q = ⌊q⌋) ∧
    (∀ q q' : ℚ, 0 ≤ q → q ≤ q' → uIdx q ≤ uIdx q') := by
  refine ⟨rfl, rfl, rfl, by decide, ?_, ?_, ?_⟩
  · intro q hq
    have h1 : bytes (.vnum q) = bytesNum (some q) := rfl
    rw [h1]
    unfold bytesNum
    rw [scaleLoop_eq q]
    by_cases h : uIdx q = 0
    · simp [h, jbitor0, pow_zero, div_one]
    · simp [h, jtoFixed1]
  · intro q h0 h1
    exact toInt32_of_small q h0 h1
  · intro q q' _ h
    exact uIdx_mono q q' h

/-- Witness for claim C4 at concrete inputs. -/
theorem c4_formatBytes_witness :
    (0:ℚ) ≤ 1536 ∧ bytes (.vnum 1536) = "1.5 KB" ∧ uIdx 0 ≤ uIdx 1536 := by
  refine ⟨by norm_num, ?_, ?_⟩
  · refine (c4_formatBytes_spec.2.2.2.2.1 1536 (by norm_num)).trans ?_
    have hu : uIdx 1536 = 1 := by norm_num [uIdx]
    have hd : (1536:ℚ) / 1024 ^ (1:ℕ) = 3 / 2 := by norm_num
    have hm : ⌊(3:ℚ) / 2 * 10 + 1 / 2⌋ = 15 := by norm_num
    rw [hu, if_neg (by norm_num : ¬(1 = 0)), hd]
    unfold toFixed1 toFixed1NN
    rw [if_neg (by norm_num : ¬((3:ℚ) / 2 < 0)), hm]
    decide
  · exact c4_formatBytes_spec.2.2.2.2.2.2 0 1536 (by norm_num) (by norm_num)

/-- Claim C10: a non-empty string that does not parse as a number coerces to
`NaN`, the scaling loop never runs, and the `NaN` is truncated to `0` in the
base unit, so `bytes` returns `"0 B"`. -/
theorem c10_bytes_nonnumeric_string (s : String) (hs : s ≠ "")
    (hn : strToNumber s = none) : bytes (.vstr s) = "0 B" := by
  have h1 : bytes (.vstr s) = bytesNum (strToNumber s) := by simp [bytes, hs]
  rw [h1, hn]
  rfl

/-- Witness for claim C10 at the concrete input `"abc"`. -/
theorem c10_bytes_nonnumeric_string_witness :
    "abc" ≠ "" ∧ strToNumber "abc" = none ∧ bytes (.vstr "abc") = "0 B" :=
  ⟨by decide, by decide,
   c10_bytes_nonnumeric_string "abc" (by decide) (by decide)⟩

/-- Split a character list at its first `':'`; `none` when there is none. -/
def schemeSplit : List Char → Option (List Char × List Char)
  | [] => none
  | c :: r =>
    if c = ':' then some ([], r)
    else (schemeSplit r).map (fun p => (c :: p.1, p.2))

/-- Model of the browser's `new URL(s)` for the purposes of `short`:
parses `scheme://host/path` forms, returning `(hostname, pathname)`
(`pathname` is `"/"` when absent); query and fragment are cut off, and any
other shape is a parse failure.  Userinfo, ports and non-special schemes
are outside the modelled input space. -/
def urlParseStr (s : String) : Option (String × String) :=
  match schemeSplit (jsTrim s.data) with
  | none => none
  | some (sch, rest) =>
    if sch ≠ [] ∧ sch.all Char.isAlpha ∧ rest.take 2 = ['/', '/'] then
      let after := rest.drop 2
      let host := after.takeWhile (fun c => c != '/' && c != '?' && c != '#')
      let tl := after.dropWhile (fun c => c != '/' && c != '?' && c != '#')
      if host = [] then none
      else
        let path := tl.takeWhile (fun c => c != '?' && c != '#')
        some (⟨host⟩, ⟨if path = [] then ['/'] else path⟩)
    else none

/-- The source's `short(u)` (`app.js` line 110), with its exception
behaviour made explicit: on URL parse success, `hostname + pathname`
truncated to 60 characters; on parse failure, `(u||'').slice(0,60)`, which
returns the truncated raw string when `u` is a string (or the empty string
when `u` is falsy) but throws a `TypeError` when `u` is a truthy
non-string, since only strings have `slice`. -/
def shortE (u : JVal) : Except String String :=
  match urlParseStr (jsToString u) with
  | some hp => .ok ⟨(hp.1.data ++ hp.2.data).take 60⟩
  | none =>
    match jsOr u (.vstr "") with
    | .vstr s => .ok ⟨s.data.take 60⟩
    | _ => .error "TypeError: slice is not a function"

/-- Value of `short(u)` on the non-throwing domain (url fields that are
strings or falsy); used by the renderer embedding, whose theorems restrict
documents to this domain. -/
def shortV (u : JVal) : String :=
  match shortE u with
  | .ok s => s
  | .error _ => ""

/-- Bar-chart datum: the `{name, size}` pairs fed to `drawBars`. -/
structure BarDatum where
  name : String
  size : JNum
deriving DecidableEq, Repr

/-- JS `Math.max(a, b)`, propagating `NaN`. -/
def jmax (a b : JNum) : JNum :=
  match a, b with
  | some x, some y => some (max x y)
  | _, _ => none

/-- The `Math.max(...data.map(d=>d.size), 1)` computation of `drawBars`. -/
def barsMax (l : List BarDatum) : JNum :=
  (l.map (fun d => d.size)).foldr jmax (some 1)

/-- JS division of two possibly-`NaN` numbers (the denominator is a chart
maximum, which is at least `1` whenever it is a number). -/
def jdivN (a b : JNum) : JNum :=
  match a, b with
  | some x, some y => some (x / y)
  | _, _ => none

/-- The `(d.size/max*100).toFixed(1)` width string of a chart bar. -/
def pct (s m : JNum) : String :=
  jtoFixed1 (jmul (jdivN s m) 100)

/-- JS `Array.prototype.join('')`. -/
def concatAll : List String → String
  | [] => ""
  | s :: r => s ++ concatAll r

/-- One row of the chart built by `drawBars` (`app.js` lines 116-123).
`bytes(d.size)` receives a number, for which the `n==null||n===''` guard is
false and `Number` is the identity, hence `bytesNum`. -/
def barRow (m : JNum) (d : BarDatum) : String :=
  "\n    <div style=\"display:flex;align-items:center;gap:8px;margin:4px 0\">\n      <div class=\"list\" style=\"flex:1;white-space:nowrap;overflow:hidden;text-overflow:ellipsis\">"
    ++ esc (.vstr d.name) ++
    "</div>\n      <div style=\"width:260px;background:#1b1b1f;border:1px solid #2a2a30;border-radius:6px;height:16px;position:relative\">\n        <div style=\"position:absolute;left:0;top:0;bottom:0;width:"
    ++ pct d.size m ++
    "%;background:#22c55e;border-radius:6px\"></div>\n      </div>\n      <div style=\"width:80px;text-align:right\">"
    ++ bytesNum d.size ++
    "</div>\n    </div>"

/-- The source's `drawBars` markup (`app.js` lines 113-124): the rows it
assigns to the chart element's `innerHTML`. -/
def drawBars (l : List BarDatum) : String :=
  concatAll (l.map (barRow (barsMax l)))

theorem barsMax_spec (l : List BarDatum)
    (h : ∀ d ∈ l, ∃ q : ℚ, d.size = some q ∧ 0 ≤ q) :
    ∃ M : ℚ, barsMax l = some M ∧ 1 ≤ M ∧
      (∀ d ∈ l, ∀ q : ℚ, d.size = some q → q ≤ M) ∧
      (M = 1 ∨ ∃ d ∈ l, d.size = some M) := by
  induction l with
  | nil =>
    exact ⟨1, rfl, le_refl 1, by simp, Or.inl rfl⟩
  | cons d t ih =>
    obtain ⟨q, hdq, hq0⟩ := h d (List.mem_cons_self d t)
    obtain ⟨M, hM, h1M, hb, ha⟩ := ih (fun x hx => h x (List.mem_cons_of_mem d hx))
    refine ⟨max q M, ?_, le_max_of_le_right h1M, ?_, ?_⟩
    · have : barsMax (d :: t) = jmax d.size (barsMax t) := rfl
      rw [this, hdq, hM]
      rfl
    · intro x hx qx hqx
      rcases List.mem_cons.mp hx with rfl | hx
      · rw [hdq] at hqx
        exact (Option.some_injective _ hqx) ▸ le_max_left q M
      · exact le_trans (hb x hx qx hqx) (le_max_right q M)
    · rcases max_cases q M with ⟨he, _⟩ | ⟨he, _⟩
      · exact Or.inr ⟨d, List.mem_cons_self d t, by rw [hdq, he]⟩
      · rcases ha with h1 | ⟨x, hx, hxs⟩
        · exact Or.inl (he.trans h1)
        · exact Or.inr ⟨x, List.mem_cons_of_mem d hx, by rw [hxs, he]⟩

theorem toFixed1_zero : toFixed1 0 = "0.0" := by
  unfold toFixed1 toFixed1NN
  rw [if_neg (by norm_num : ¬((0:ℚ) < 0))]
  have hm : ⌊(0:ℚ) * 10 + 1 / 2⌋ = 0 := by norm_num
  rw [hm]
  decide

/-- Claim C5: for sizes that are nonnegative numbers, the chart maximum is
the larger of `1` and the greatest size (so all-zero sizes give `"0.0"`
percent bars and no division by zero), and one row is rendered per entry in
input order with width `size/max` as a percentage with one decimal place. -/
theorem c5_drawBars_spec (l : List BarDatum)
    (h : ∀ d ∈ l, ∃ q : ℚ, d.size = some q ∧ 0 ≤ q) :
    ∃ M : ℚ, barsMax l = some M ∧ 1 ≤ M ∧
      (∀ d ∈ l, ∀ q : ℚ, d.size = some q → q ≤ M) ∧
      (M = 1 ∨ ∃ d ∈ l, d.size = some M) ∧
      drawBars l = concatAll (l.map (barRow (some M))) ∧
      (l.map (barRow (some M))).length = l.length ∧
      (∀ d ∈ l, ∀ q : ℚ, d.size = some q →
        pct d.size (barsMax l) = toFixed1 (q / M * 100)) ∧
      ((∀ d ∈ l, d.size = some 0) →
        ∀ d ∈ l, pct d.size (barsMax l) = "0.0") := by
  obtain ⟨M, hM, h1M, hb, ha⟩ := barsMax_spec l h
  refine ⟨M, hM, h1M, hb, ha, by rw [drawBars, hM], by simp, ?_, ?_⟩
  · intro d _ q hq
    rw [hM, hq]
    rfl
  · intro hz d hd
    have hq := hz d hd
    rw [hM, hq]
    show jtoFixed1 (jmul (jdivN (some 0) (some M)) 100) = "0.0"
    have : (0:ℚ) / M * 100 = 0 := by
      rw [zero_div, zero_mul]
    show toFixed1 ((0:ℚ) / M * 100) = "0.0"
    rw [this]
    exact toFixed1_zero

/-- Witness for claim C5 at a concrete all-zero chart. -/
theorem c5_drawBars_spec_witness :
    (∀ d ∈ [BarDatum.mk "a" (some 0)], ∃ q : ℚ, d.size = some q ∧ 0 ≤ q) ∧
    pct (some 0) (barsMax [BarDatum.mk "a" (some 0)]) = "0.0" := by
  have hh : ∀ d ∈ [BarDatum.mk "a" (some 0)], ∃ q : ℚ, d.size = some q ∧ 0 ≤ q := by
    intro d hd
    rw [List.mem_singleton] at hd
    subst hd
    exact ⟨0, rfl, le_refl 0⟩
  refine ⟨hh, ?_⟩
  obtain ⟨M, hM, h1, hb, ha, hdb, hlen, hpct, hzero⟩ := c5_drawBars_spec _ hh
  have hz : ∀ d ∈ [BarDatum.mk "a" (some 0)], d.size = some 0 := by
    intro d hd
    rw [List.mem_singleton] at hd
    subst hd
    rfl
  exact hzero hz _ (List.mem_singleton.mpr rfl)

theorem ratToString_nat (n : ℕ) : ratToString (n : ℚ) = toString n := by
  unfold ratToString ratToStringNN
  rw [if_neg (not_lt.mpr (by exact_mod_cast Nat.cast_nonneg n : (0:ℚ) ≤ (n:ℚ)))]
  rw [Int.floor_natCast]
  simp

theorem jsToString_vnum5 : jsToString (.vnum 5) = "5" := by
  show ratToString 5 = "5"
  have h : (5:ℚ) = ((5:ℕ):ℚ) := by norm_num
  rw [h, ratToString_nat]
  rfl

/-- Claim C9 as stated is false: `short` throws for a truthy non-string
input such as the number `5` — `new URL(5)` fails, and the `catch` arm
evaluates `(5||'').slice(0,60)`, but numbers have no `slice` method. -/
theorem c9_short_throws_on_number_cex :
    shortE (.vnum 5) = .error "TypeError: slice is not a function" := by
  have hp : urlParseStr (jsToString (.vnum 5)) = none := by
    rw [jsToString_vnum5]
    decide
  have ht : truthy (.vnum 5) = true := by
    simp [truthy]
  unfold shortE
  rw [hp]
  show (match jsOr (.vnum 5) (.vstr "") with
    | JVal.vstr s => Except.ok (⟨s.data.take 60⟩ : String)
    | _ => Except.error "TypeError: slice is not a function") =
    Except.error "TypeError: slice is not a function"
  unfold jsOr
  rw [ht]
  rfl

/-- String returned by the `catch` arm of `short` on its non-throwing
domain: the raw string truncated to 60 characters, or empty for falsy
input. -/
def shortFallback (u : JVal) : String :=
  match u with
  | .vstr s => ⟨s.data.take 60⟩
  | _ => ""

/-- Claim C9 amended: for every input that is a string or is falsy, `short`
never throws; it returns `hostname + pathname` truncated to 60 characters
when the input parses as a URL, and otherwise the raw string (empty for a
falsy input) truncated to 60 characters; the result never exceeds 60
characters. -/
theorem c9_short_total_on_strings (u : JVal)
    (h : (∃ s, u = .vstr s) ∨ truthy u = false) :
    shortE u = .ok (match urlParseStr (jsToString u) with
      | some hp => ⟨(hp.1.data ++ hp.2.data).take 60⟩
      | none => shortFallback u) ∧
    ∀ t, shortE u = .ok t → t.data.length ≤ 60 := by
  have key : shortE u = .ok (match urlParseStr (jsToString u) with
      | some hp => ⟨(hp.1.data ++ hp.2.data).take 60⟩
      | none => shortFallback u) := by
    rcases h with ⟨s, rfl⟩ | hf
    · unfold shortE
      cases hres : urlParseStr (jsToString (.vstr s)) with
      | some hp => rfl
      | none =>
        by_cases hs : s = ""
        · subst hs
          simp only [jsOr, truthy]
          rfl
        · simp only [jsOr, truthy, decide_not, hs, decide_eq_true_eq]
          rfl
    · unfold shortE
      cases hres : urlParseStr (jsToString u) with
      | some hp => rfl
      | none =>
        have ho : jsOr u (.vstr "") = .vstr "" := by
          unfold jsOr
          rw [hf]
          rfl
        rw [ho]
        cases u with
        | vstr s =>
          have : s = "" := by
            by_contra hne
            simp [truthy, hne] at hf
          subst this
          rfl
        | vundef => rfl
        | vnull => rfl
        | vbool b => rfl
        | vnum q => rfl
  refine ⟨key, ?_⟩
  intro t ht
  rw [key] at ht
  have he := Except.ok.inj ht
  subst he
  cases hres : urlParseStr (jsToString u) with
  | some hp =>
    simp only [hres]
    show ((hp.1.data ++ hp.2.data).take 60).length ≤ 60
    rw [List.length_take]
    exact min_le_left _ _
  | none =>
    simp only [hres]
    cases u with
    | vstr s =>
      show (s.data.take 60).length ≤ 60
      rw [List.length_take]
      exact min_le_left _ _
    | vundef => decide
    | vnull => decide
    | vbool b => exact Nat.zero_le 60
    | vnum q => exact Nat.zero_le 60

/-- Witness for the amended claim C9 at concrete inputs. -/
theorem c9_short_total_on_strings_witness :
    shortE (.vstr "notaurl") = .ok "notaurl" ∧
    shortE (.vstr "https://example.com/a/b?x=1") = .ok "example.com/a/b" := by
  constructor
  · have h := (c9_short_total_on_strings (.vstr "notaurl") (Or.inl ⟨_, rfl⟩)).1
    rw [h]
    have hp : urlParseStr (jsToString (.vstr "notaurl")) = none := by decide
    simp only [hp]
    exact congrArg Except.ok (by decide)
  · have h := (c9_short_total_on_strings (.vstr "https://example.com/a/b?x=1")
      (Or.inl ⟨_, rfl⟩)).1
    rw [h]
    have hp : urlParseStr (jsToString (.vstr "https://example.com/a/b?x=1")) =
        some ("example.com", "/a/b") := by decide
    simp only [hp]
    exact congrArg Except.ok (by decide)

/-- Metadata fields of an analysis document; absent fields are `vundef`
(the merge `Object.assign({}, data.metadata || {})` only copies). -/
structure Metadata where
  scan_type : JVal := .vundef
  api_version : JVal := .vundef
  unix_timestamp : JVal := .vundef
  scan_duration : JVal := .vundef
  creative_type : JVal := .vundef
  original_name : JVal := .vundef
  device : JVal := .vundef
  language : JVal := .vundef
  user_agent : JVal := .vundef
deriving DecidableEq, Repr

/-- Archive entry `{name, is_dir, size, compressed}`. -/
structure ArchiveEntry where
  name : JVal := .vundef
  is_dir : JVal := .vundef
  size : JVal := .vundef
  compressed : JVal := .vundef
deriving DecidableEq, Repr

/-- Thumbnail entry `{t_sec, png_b64}`. -/
structure Thumb where
  t_sec : JVal := .vundef
  png_b64 : JVal := .vundef
deriving DecidableEq, Repr

/-- Check entry `{category?, label, value, status, help?}`. -/
structure CheckRow where
  category : JVal := .vundef
  label : JVal := .vundef
  value : JVal := .vundef
  status : JVal := .vundef
  help : JVal := .vundef
deriving DecidableEq, Repr

/-- Network request entry `{url, status?, protocol?, enc?, bytes?, type?}`. -/
structure NetReq where
  url : JVal := .vundef
  status : JVal := .vundef
  protocol : JVal := .vundef
  enc : JVal := .vundef
  bytes : JVal := .vundef
  type : JVal := .vundef
deriving DecidableEq, Repr

/-- The `runtime` object of an analysis document. -/
structure Runtime where
  network_requests : Option (List NetReq) := none
deriving DecidableEq, Repr

/-- Analysis document as consumed by `renderAll` and `upload`; `none` and
`vundef` model absent fields. -/
structure Doc where
  run_id : JVal := .vundef
  error : JVal := .vundef
  metadata : Option Metadata := none
  archive : Option (List ArchiveEntry) := none
  thumbnails : Option (List Thumb) := none
  results : Option (List CheckRow) := none
  runtime : Option Runtime := none
deriving DecidableEq, Repr

/-- The `previewBtn` template literal of `renderAll` (`app.js` line 28);
`run` is interpolated without escaping. -/
def previewBtn (run : JVal) : String :=
  "<a class=\"btn\" href=\"/runs/" ++ jsToString run ++
    "/view\" target=\"_blank\">Open Creative Preview</a>"

/-- Markup assigned to the metadata container (`app.js` lines 32-45). -/
def metaHtml (d : Doc) (name : String) : String :=
  let md := d.metadata.getD {}
  "\n    <h2>Metadata</h2>\n    " ++ previewBtn d.run_id ++
  "\n    <div class=\"kv\" style=\"margin-top:12px\">\n      <div>Scan Type</div><div>"
    ++ esc (jsOr md.scan_type (.vstr "Web scan")) ++
  "</div>\n      <div>API Version</div><div>"
    ++ esc (jsOr md.api_version (.vstr "v1")) ++
  "</div>\n      <div>Unix Timestamp</div><div>"
    ++ esc (.vstr (jsToString (jsOr md.unix_timestamp (.vstr "")))) ++
  "</div>\n      <div>Scan Duration</div><div>"
    ++ esc (.vstr (jsToString (jsOr md.scan_duration (.vstr "")))) ++
  " seconds</div>\n      <div>Creative Type</div><div>"
    ++ esc (jsOr md.creative_type (.vstr "HTML5 Zip")) ++
  "</div>\n      <div>Original Name</div><div>"
    ++ esc (jsOr md.original_name (jsOr (.vstr name) (.vstr ""))) ++
  "</div>\n      <div>Device</div><div>"
    ++ esc (jsOr md.device (.vstr "Desktop")) ++
  "</div>\n      <div>Language</div><div>"
    ++ esc (jsOr md.language (.vstr "en-US")) ++
  "</div>\n      <div>User-Agent</div><div class=\"list\">"
    ++ esc (jsOr md.user_agent (.vstr "")) ++
  "</div>\n    </div>"

/-- One archive table row (`app.js` lines 49-53). -/
def archiveRow (e : ArchiveEntry) : String :=
  "\n    <tr><td>" ++ (if truthy e.is_dir then "📁" else "📄") ++
  "</td>\n        <td>" ++ esc e.name ++
  "</td>\n        <td class=\"ta-r\">" ++ bytes e.size ++
  "</td>\n        <td class=\"ta-r\">" ++ bytes e.compressed ++
  "</td></tr>"

/-- Markup assigned to the archive container (`app.js` lines 54-58). -/
def archiveHtml (d : Doc) : String :=
  "\n    <h2>ZIP Archive</h2>\n    <table class=\"table\"><thead>\n      <tr><th></th><th>Filename</th><th class=\"ta-r\">File Size</th><th class=\"ta-r\">Compressed</th></tr>\n    </thead><tbody>"
    ++ concatAll ((d.archive.getD []).map archiveRow) ++
  "</tbody></table>"

/-- One thumbnail figure (`app.js` lines 65-70); `run`, `t_sec` and
`png_b64` are interpolated without escaping. -/
def thumbFig (run : JVal) (t : Thumb) : String :=
  "<figure style=\"margin:0\">\n        <a href=\"/runs/" ++ jsToString run ++
  "/backup.png?t=" ++ jsToString t.t_sec ++
  "\" download=\"backup_" ++ jsToString t.t_sec ++
  ".png\" title=\"Download as Backup\">\n          <img src=\"" ++ jsToString t.png_b64 ++
  "\" alt=\"" ++ jsToString t.t_sec ++
  "s\" style=\"height:84px;border-radius:6px;border:1px solid #2a2a30\">\n        </a>\n        <figcaption class=\"meta\" style=\"text-align:center\">"
    ++ jsToString t.t_sec ++
  " sec</figcaption>\n      </figure>"

/-- The `thumbRow` value (`app.js` lines 63-71): empty when there are no
thumbnails. -/
def thumbRow (run : JVal) (thumbs : List Thumb) : String :=
  if thumbs.isEmpty then ""
  else
    "\n    <div style=\"display:flex;gap:8px;flex-wrap:wrap;margin:8px 0 16px 0\">\n      "
      ++ concatAll (thumbs.map (thumbFig run)) ++
    "\n    </div>"

/-- One check table row (`app.js` lines 73-79); `status` is interpolated
into the badge class without escaping. -/
def checkRow (r : CheckRow) : String :=
  "\n    <tr>\n      <td>" ++ esc (jsOr r.category (.vstr "-")) ++
  "</td>\n      <td>" ++ esc r.label ++
  "</td>\n      <td class=\"ta-r\"><span class=\"badge " ++ jsToString r.status ++
  "\">" ++ esc r.value ++
  "</span>\n        " ++
  (if truthy r.help then "<div class=\"help\">" ++ esc r.help ++ "</div>" else "") ++
  "</td>\n    </tr>"

/-- Markup assigned to the checks container (`app.js` lines 80-82). -/
def matrixHtml (d : Doc) : String :=
  "<h2>Checks</h2>" ++ thumbRow d.run_id (d.thumbnails.getD []) ++
  "\n    <table class=\"table\"><thead><tr><th>Category</th><th>Test</th><th class=\"ta-r\">Result</th></tr></thead>\n    <tbody>"
    ++ concatAll ((d.results.getD []).map checkRow) ++
  "</tbody></table>"

/-- One network table row (`app.js` lines 88-96); `status` is interpolated
without escaping, `bytes` is shown via `bytes()` only when truthy. -/
def netRow (n : NetReq) : String :=
  "\n      <tr>\n        <td>" ++ esc (.vstr (shortV n.url)) ++
  "</td>\n        <td>" ++ jsToString (jsNullish n.status (.vstr "")) ++
  "</td>\n        <td>" ++ esc (jsOr n.protocol (.vstr "")) ++
  "</td>\n        <td>" ++ esc (jsOr n.enc (.vstr "")) ++
  "</td>\n        <td class=\"ta-r\">" ++ (if truthy n.bytes then bytes n.bytes else "") ++
  "</td>\n        <td>" ++ esc (jsOr n.type (.vstr "")) ++
  "</td>\n      </tr>"

/-- The network request list of a document: `[]` when `runtime` or
`network_requests` is absent (an empty list is truthy in JS, so the
ternary yields the same result for it). -/
def netOf (d : Doc) : List NetReq :=
  match d.runtime with
  | none => []
  | some r => r.network_requests.getD []

/-- Markup assigned to the network container (`app.js` lines 97-101). -/
def networkHtml (net : List NetReq) : String :=
  "<h2>Network Requests</h2>\n      <div id=\"netChart\" style=\"height:260px;margin:8px 0 12px 0\"></div>\n      <table class=\"table\"><thead>\n        <tr><th>Resource URL</th><th>Status</th><th>Protocol</th><th>Enc</th><th class=\"ta-r\">Bytes</th><th>Type</th></tr>\n      </thead><tbody>"
    ++ concatAll (net.map netRow) ++
  "</tbody></table>"

/-- The chart datum `{name: short(n.url), size: Number(n.bytes||0)}` built
for `drawBars` (`app.js` line 104). -/
def toBar (n : NetReq) : BarDatum :=
  ⟨shortV n.url, jsNumber (jsOr n.bytes (.vnum 0))⟩

/-- A DOM container: its `style.display` and `innerHTML`. -/
structure Container where
  display : String
  innerHTML : String
deriving DecidableEq, Repr

/-- Container after `el.style.display='none'; el.innerHTML=''`. -/
def clearedContainer : Container := ⟨"none", ""⟩

/-- The DOM state the renderer touches: the four section containers and the
content of the chart element (`none` when no chart has been drawn; the
chart element lives inside the network container, so clearing that
container also clears the chart). -/
structure PageState where
  meta : Container
  archive : Container
  matrix : Container
  network : Container
  netChart : Option String
deriving DecidableEq, Repr

/-- Page state with all four containers cleared and hidden. -/
def clearedState : PageState :=
  ⟨clearedContainer, clearedContainer, clearedContainer, clearedContainer, none⟩

/-- The `forEach` clear at the start of `upload` (`app.js` line 17). -/
def clearSections (_st : PageState) : PageState := clearedState

/-- The source's `renderAll(data, name)` (`app.js` lines 25-106) as a state
transformer on the containers: the three unconditional sections are always
rewritten and shown; the network section is rewritten, shown and its chart
drawn only when the request list is non-empty. -/
def renderAll (d : Doc) (name : String) (st : PageState) : PageState :=
  let net := netOf d
  if net.isEmpty then
    { st with
      meta := ⟨"block", metaHtml d name⟩
      archive := ⟨"block", archiveHtml d⟩
      matrix := ⟨"block", matrixHtml d⟩ }
  else
    { st with
      meta := ⟨"block", metaHtml d name⟩
      archive := ⟨"block", archiveHtml d⟩
      matrix := ⟨"block", matrixHtml d⟩
      network := ⟨"block", networkHtml net⟩
      netChart := some (drawBars ((net.map toBar).take 12)) }

/-- The source's `upload` (`app.js` lines 16-23) after the response has
been received and parsed: clears the four containers, then either raises a
single alert (returned as the message list) or renders.  `resOk` is
`res.ok`, `d` the parsed body. -/
def upload (resOk : Bool) (d : Doc) (name : String) (st0 : PageState) :
    List String × PageState :=
  let st := clearSections st0
  if !resOk || truthy d.error then
    ([jsToString (jsOr d.error (.vstr "Upload failed"))], st)
  else
    ([], renderAll d name st)

/-- A value on which `short` does not throw: a string, or falsy. -/
def strOrFalsy (v : JVal) : Prop := (∃ s, v = .vstr s) ∨ truthy v = false

/-- Domain restriction for theorems about `renderAll`: every network `url`
field is a string or falsy, so the JS code completes without throwing
inside `short` (see `shortE`). -/
def netUrlsOk (d : Doc) : Prop := ∀ n ∈ netOf d, strOrFalsy n.url

/-- Claim C7: when `runtime.network_requests` is absent or empty, the
render leaves the network container exactly as `upload` cleared it (hidden
with empty content), draws no chart, and still renders and shows the other
three sections. -/
theorem c7_network_hidden_when_empty (d : Doc) (name : String)
    (h : netOf d = []) :
    (renderAll d name clearedState).network = clearedContainer ∧
    (renderAll d name clearedState).netChart = none ∧
    (renderAll d name clearedState).meta =
      ⟨"block", metaHtml d name⟩ ∧
    (renderAll d name clearedState).archive =
      ⟨"block", archiveHtml d⟩ ∧
    (renderAll d name clearedState).matrix =
      ⟨"block", matrixHtml d⟩ := by
  have hr : renderAll d name clearedState =
      { clearedState with
        meta := ⟨"block", metaHtml d name⟩
        archive := ⟨"block", archiveHtml d⟩
        matrix := ⟨"block", matrixHtml d⟩ } := by
    unfold renderAll
    rw [h]
    rfl
  rw [hr]
  exact ⟨rfl, rfl, rfl, rfl, rfl⟩

/-- Witness for claim C7 on the all-absent document. -/
theorem c7_network_hidden_when_empty_witness :
    netOf {} = [] ∧
    (renderAll {} "ad.zip" clearedState).network = clearedContainer ∧
    (renderAll {} "ad.zip" clearedState).netChart = none :=
  ⟨rfl, (c7_network_hidden_when_empty {} "ad.zip" rfl).1,
    (c7_network_hidden_when_empty {} "ad.zip" rfl).2.1⟩

/-- Claim C2 as stated is false: a response with HTTP success status whose
body carries `error: ""` (an error field that is present but empty) is
treated as success — the sections are rendered and no alert is raised —
because the code tests truthiness of `data.error`, not presence. -/
theorem c2_empty_error_success_cex :
    (upload true { error := .vstr "" } "ad.zip" clearedState).1 = [] ∧
    (upload true { error := .vstr "" } "ad.zip" clearedState).2.meta.display
      = "block" := by
  constructor
  · rfl
  · rfl

/-- Claim C2 amended: the upload treats a response as success iff the HTTP
status indicates success and the parsed body's `error` field is absent or
falsy (e.g. missing, null, or the empty string); on every failure exactly
one alert is raised, containing the stringified error value when it is
truthy and the generic `"Upload failed"` otherwise, and the four section
containers remain cleared and hidden. -/
theorem c2_upload_outcomes (ok : Bool) (d : Doc) (name : String)
    (st0 : PageState) :
    ((!ok || truthy d.error) = true →
      upload ok d name st0 =
        ([jsToString (jsOr d.error (.vstr "Upload failed"))], clearedState) ∧
      (upload ok d name st0).1.length = 1) ∧
    ((!ok || truthy d.error) = false →
      (upload ok d name st0).1 = [] ∧
      (upload ok d name st0).2 = renderAll d name clearedState) ∧
    (truthy d.error = false → ok = false →
      (upload ok d name st0).1 = ["Upload failed"]) := by
  refine ⟨?_, ?_, ?_⟩
  · intro h
    unfold upload clearSections
    rw [h]
    exact ⟨rfl, rfl⟩
  · intro h
    unfold upload clearSections
    rw [h]
    exact ⟨rfl, rfl⟩
  · intro he hok
    subst hok
    unfold upload clearSections jsOr
    rw [he]
    simp [he]
    rfl

/-- Witness for the amended claim C2 at concrete failure inputs. -/
theorem c2_upload_outcomes_witness :
    upload false { error := .vstr "boom" } "ad.zip" clearedState
      = (["boom"], clearedState) ∧
    (upload false ({} : Doc) "ad.zip" clearedState).1 = ["Upload failed"] := by
  constructor
  · have h := (c2_upload_outcomes false { error := .vstr "boom" } "ad.zip"
      clearedState).1 (by rfl)
    exact h.1.trans (by rfl)
  · exact (c2_upload_outcomes false ({} : Doc) "ad.zip" clearedState).2.2
      rfl rfl

/-- Claim C8: the render cycle is stateless and deterministic — rendering
the same document twice in a row yields the same page state (idempotence
over any starting state), and the three unconditional fragments do not
depend on the prior container state at all; the network fragment and chart
agree across prior states whenever the request list is non-empty (when it
is empty the network container is simply left untouched).  The embedding
is a pure function of the document, which also captures that rendering
never mutates the document. -/
theorem c8_render_idempotent (d : Doc) (name : String) (st st' : PageState)
    (_hu : netUrlsOk d) :
    renderAll d name (renderAll d name st) = renderAll d name st ∧
    (renderAll d name st).meta = (renderAll d name st').meta ∧
    (renderAll d name st).archive = (renderAll d name st').archive ∧
    (renderAll d name st).matrix = (renderAll d name st').matrix ∧
    (netOf d ≠ [] →
      (renderAll d name st).network = (renderAll d name st').network ∧
      (renderAll d name st).netChart = (renderAll d name st').netChart) := by
  cases hne : netOf d with
  | nil =>
    have hr : ∀ s : PageState, renderAll d name s =
        { s with
          meta := ⟨"block", metaHtml d name⟩
          archive := ⟨"block", archiveHtml d⟩
          matrix := ⟨"block", matrixHtml d⟩ } := by
      intro s
      unfold renderAll
      rw [hne]
      rfl
    simp only [hr]
    simp
  | cons a t =>
    have hr : ∀ s : PageState, renderAll d name s =
        { s with
          meta := ⟨"block", metaHtml d name⟩
          archive := ⟨"block", archiveHtml d⟩
          matrix := ⟨"block", matrixHtml d⟩
          network := ⟨"block", networkHtml (a :: t)⟩
          netChart := some (drawBars (((a :: t).map toBar).take 12)) } := by
      intro s
      unfold renderAll
      rw [hne]
      rfl
    simp only [hr]
    simp

/-- Concrete document with a single network request, used by witnesses. -/
def netReq1 : NetReq := { url := .vstr "https://a.b/c" }

def runtime1 : Runtime := { network_requests := some [netReq1] }

def docNet1 : Doc := { runtime := some runtime1 }

/-- Witness for claim C8 at a concrete document with one network entry. -/
theorem c8_render_idempotent_witness :
    renderAll docNet1 "ad.zip" (renderAll docNet1 "ad.zip" clearedState)
      = renderAll docNet1 "ad.zip" clearedState := by
  have hu : netUrlsOk docNet1 := by
    intro n hn
    rw [show netOf docNet1 = [netReq1] from rfl] at hn
    rw [List.mem_singleton] at hn
    subst hn
    exact Or.inl ⟨_, rfl⟩
  exact (c8_render_idempotent docNet1 "ad.zip" clearedState clearedState hu).1

theorem netOf_cons_not_empty {d : Doc} {a : NetReq} {t : List NetReq}
    (h : netOf d = a :: t) : (netOf d).isEmpty = false := by
  rw [h]
  rfl

/-- Claim C6 amended: for a non-empty request list the chart is built from
at most the first 12 entries (label the shortened URL, magnitude
`Number(bytes||0)`, so missing or otherwise falsy `bytes` defaults to `0`,
while a truthy non-numeric string yields `NaN`), and the table below
renders one row per entry of the whole list. -/
theorem c6_network_chart_spec (d : Doc) (name : String) (st : PageState)
    (hne : netOf d ≠ []) (_hu : netUrlsOk d) :
    (renderAll d name st).netChart =
      some (drawBars (((netOf d).take 12).map toBar)) ∧
    (((netOf d).take 12).map toBar).length = min 12 (netOf d).length ∧
    (renderAll d name st).network.display = "block" ∧
    (renderAll d name st).network.innerHTML = networkHtml (netOf d) ∧
    ((netOf d).map netRow).length = (netOf d).length ∧
    (∀ n ∈ netOf d, truthy n.bytes = false → (toBar n).size = some 0) := by
  cases hl : netOf d with
  | nil => exact absurd hl hne
  | cons a t =>
    have hr : renderAll d name st =
        { st with
          meta := ⟨"block", metaHtml d name⟩
          archive := ⟨"block", archiveHtml d⟩
          matrix := ⟨"block", matrixHtml d⟩
          network := ⟨"block", networkHtml (a :: t)⟩
          netChart := some (drawBars (((a :: t).map toBar).take 12)) } := by
      unfold renderAll
      rw [hl]
      rfl
    refine ⟨?_, ?_, ?_, ?_, ?_, ?_⟩
    · rw [hr]
      show some (drawBars (((a :: t).map toBar).take 12)) = _
      rw [List.map_take]
    · rw [List.length_map, List.length_take]
    · rw [hr]
    · rw [hr]
    · rw [List.length_map]
    · intro n _ hb
      unfold toBar jsOr
      rw [hb]
      rfl

/-- Witness for the amended claim C6 on a concrete single-request
document. -/
theorem c6_network_chart_spec_witness :
    netOf docNet1 ≠ [] ∧
    (renderAll docNet1 "ad.zip" clearedState).netChart =
      some (drawBars (((netOf docNet1).take 12).map toBar)) ∧
    (renderAll docNet1 "ad.zip" clearedState).network.display = "block" := by
  have hne : netOf docNet1 ≠ [] := by
    rw [show netOf docNet1 = [netReq1] from rfl]
    simp
  have hu : netUrlsOk docNet1 := by
    intro n hn
    rw [show netOf docNet1 = [netReq1] from rfl] at hn
    rw [List.mem_singleton] at hn
    subst hn
    exact Or.inl ⟨_, rfl⟩
  have h := c6_network_chart_spec docNet1 "ad.zip" clearedState hne hu
  exact ⟨hne, h.1, h.2.2.1⟩

/-- Claim C6 as stated is false on the bytes-coercion clause: an entry
whose `bytes` is the non-numeric string `"zz"` is charted with magnitude
`NaN` (`Number("zz"||0)` is `NaN`), not `0`. -/
theorem c6_nonnumeric_bytes_cex :
    truthy (JVal.vstr "zz") = true ∧
    toBar ({ url := .vstr "https://a.b/c", bytes := .vstr "zz" } : NetReq)
      = { name := "a.b/c", size := none } ∧
    ({ name := "a.b/c", size := none } : BarDatum).size ≠ some (0:ℚ) := by
  refine ⟨by decide, ?_, by simp⟩
  unfold toBar jsOr
  have ht : truthy (JVal.vstr "zz") = true := by decide
  rw [show ({ url := .vstr "https://a.b/c", bytes := .vstr "zz" } : NetReq).bytes
      = JVal.vstr "zz" from rfl, ht]
  show BarDatum.mk (shortV (.vstr "https://a.b/c")) (jsNumber (.vstr "zz")) = _
  have h1 : shortV (.vstr "https://a.b/c") = "a.b/c" := by decide
  have h2 : jsNumber (.vstr "zz") = none := by decide
  rw [h1, h2]

/-- Replace a truthy value by the harmless string `"x"` (keeping falsy
values, so every truthiness test and fallback in the templates takes the
same branch); applied below exactly to the fields the renderer passes
through `esc`. -/
def blankV (v : JVal) : JVal := if truthy v then .vstr "x" else v

/-- Blank the nine escaped metadata fields. -/
def blankMeta (m : Metadata) : Metadata :=
  ⟨blankV m.scan_type, blankV m.api_version, blankV m.unix_timestamp,
   blankV m.scan_duration, blankV m.creative_type, blankV m.original_name,
   blankV m.device, blankV m.language, blankV m.user_agent⟩

/-- Blank the escaped archive field (`name`); `is_dir`, `size` and
`compressed` do not pass through `esc`. -/
def blankEntry (e : ArchiveEntry) : ArchiveEntry := { e with name := blankV e.name }

/-- Blank the escaped check fields; `status` does not pass through `esc`. -/
def blankCheck (r : CheckRow) : CheckRow :=
  { r with category := blankV r.category, label := blankV r.label,
           value := blankV r.value, help := blankV r.help }

/-- Blank the escaped network fields; `status` and `bytes` do not pass
through `esc`. -/
def blankNet (n : NetReq) : NetReq :=
  { n with url := blankV n.url, protocol := blankV n.protocol,
           enc := blankV n.enc, type := blankV n.type }

/-- Blank every document field that the renderer passes through `esc`,
leaving `run_id`, the thumbnail fields, the status fields and the numeric
fields untouched. -/
def blankEsc (d : Doc) : Doc :=
  { d with
    metadata := d.metadata.map blankMeta
    archive := d.archive.map (List.map blankEntry)
    results := d.results.map (List.map blankCheck)
    runtime := d.runtime.map (fun r =>
      ⟨r.network_requests.map (List.map blankNet)⟩) }

/-- Number of literal `<` characters in a string — the characters able to
open a tag in the rendered markup. -/
def countLt (s : String) : ℕ := s.data.count '<'

theorem countLt_append (a b : String) : countLt (a ++ b) = countLt a + countLt b := by
  cases a with
  | mk la =>
    cases b with
    | mk lb =>
      show (la ++ lb).count '<' = la.count '<' + lb.count '<'
      exact List.count_append '<' la lb

theorem countLt_esc (v : JVal) : countLt (esc v) = 0 := by
  show (escList _).count '<' = 0
  exact List.count_eq_zero.mpr (escList_no_lt _)

theorem truthy_blankV (v : JVal) : truthy (blankV v) = truthy v := by
  unfold blankV
  by_cases h : truthy v
  · rw [if_pos h, h]
    rfl
  · rw [if_neg h]

theorem countLt_concatAll_map {α : Type} (l : List α) (f g : α → String)
    (h : ∀ x ∈ l, countLt (f x) = countLt (g x)) :
    countLt (concatAll (l.map f)) = countLt (concatAll (l.map g)) := by
  induction l with
  | nil => rfl
  | cons x r ih =>
    show countLt (f x ++ concatAll (r.map f)) = countLt (g x ++ concatAll (r.map g))
    rw [countLt_append, countLt_append, h x (List.mem_cons_self x r),
      ih (fun y hy => h y (List.mem_cons_of_mem x hy))]

theorem metadata_getD_blank (d : Doc) :
    (d.metadata.map blankMeta).getD {} = blankMeta (d.metadata.getD {}) := by
  cases d.metadata <;> rfl

theorem netOf_blankEsc (d : Doc) :
    netOf (blankEsc d) = (netOf d).map blankNet := by
  cases hr : d.runtime with
  | none => simp [netOf, blankEsc, hr]
  | some r =>
    cases hn : r.network_requests with
    | none => simp [netOf, blankEsc, hr, hn]
    | some l => simp [netOf, blankEsc, hr, hn]

theorem countLt_metaHtml (d : Doc) (name : String) :
    countLt (metaHtml (blankEsc d) name) = countLt (metaHtml d name) := by
  show countLt (let md := (blankEsc d).metadata.getD {}; _) = _
  simp only [metaHtml]
  rw [show (blankEsc d).metadata = d.metadata.map blankMeta from rfl,
    metadata_getD_blank d,
    show (blankEsc d).run_id = d.run_id from rfl]
  generalize (d.metadata.getD {} : Metadata) = m
  simp [blankMeta, countLt_append, countLt_esc]

theorem countLt_archiveRow (e : ArchiveEntry) :
    countLt (archiveRow (blankEntry e)) = countLt (archiveRow e) := by
  unfold archiveRow
  rw [show (blankEntry e).is_dir = e.is_dir from rfl,
    show (blankEntry e).size = e.size from rfl,
    show (blankEntry e).compressed = e.compressed from rfl,
    show (blankEntry e).name = blankV e.name from rfl]
  simp [countLt_append, countLt_esc]

theorem countLt_archiveHtml (d : Doc) :
    countLt (archiveHtml (blankEsc d)) = countLt (archiveHtml d) := by
  unfold archiveHtml
  rw [show (blankEsc d).archive = d.archive.map (List.map blankEntry) from rfl]
  cases d.archive with
  | none => rfl
  | some l =>
    show countLt (_ ++ concatAll ((l.map blankEntry).map archiveRow) ++ _) = _
    rw [List.map_map]
    simp only [countLt_append]
    rw [countLt_concatAll_map l (archiveRow ∘ blankEntry) archiveRow
      (fun e _ => countLt_archiveRow e)]
    rfl

theorem countLt_checkRow (r : CheckRow) :
    countLt (checkRow (blankCheck r)) = countLt (checkRow r) := by
  unfold checkRow
  rw [show (blankCheck r).status = r.status from rfl,
    show (blankCheck r).category = blankV r.category from rfl,
    show (blankCheck r).label = blankV r.label from rfl,
    show (blankCheck r).value = blankV r.value from rfl,
    show (blankCheck r).help = blankV r.help from rfl,
    truthy_blankV r.help]
  by_cases h : truthy r.help
  · rw [if_pos h, if_pos h]
    simp [countLt_append, countLt_esc]
  · rw [if_neg h, if_neg h]
    simp [countLt_append, countLt_esc]

theorem countLt_matrixHtml (d : Doc) :
    countLt (matrixHtml (blankEsc d)) = countLt (matrixHtml d) := by
  unfold matrixHtml
  rw [show (blankEsc d).run_id = d.run_id from rfl,
    show (blankEsc d).thumbnails = d.thumbnails from rfl,
    show (blankEsc d).results = d.results.map (List.map blankCheck) from rfl]
  cases d.results with
  | none => rfl
  | some l =>
    show countLt (_ ++ _ ++ concatAll ((l.map blankCheck).map checkRow) ++ _) = _
    rw [List.map_map]
    simp only [countLt_append]
    rw [countLt_concatAll_map l (checkRow ∘ blankCheck) checkRow
      (fun r _ => countLt_checkRow r)]
    rfl

theorem countLt_netRow (n : NetReq) :
    countLt (netRow (blankNet n)) = countLt (netRow n) := by
  unfold netRow
  rw [show (blankNet n).status = n.status from rfl,
    show (blankNet n).bytes = n.bytes from rfl,
    show (blankNet n).url = blankV n.url from rfl,
    show (blankNet n).protocol = blankV n.protocol from rfl,
    show (blankNet n).enc = blankV n.enc from rfl,
    show (blankNet n).type = blankV n.type from rfl]
  simp [countLt_append, countLt_esc]

theorem countLt_networkHtml (l : List NetReq) :
    countLt (networkHtml (l.map blankNet)) = countLt (networkHtml l) := by
  unfold networkHtml
  rw [List.map_map]
  simp only [countLt_append]
  rw [countLt_concatAll_map l (netRow ∘ blankNet) netRow
    (fun n _ => countLt_netRow n)]

theorem toBar_blankNet_size (n : NetReq) :
    (toBar (blankNet n)).size = (toBar n).size := rfl

theorem barsMax_map_blank (B : List NetReq) :
    barsMax (B.map (fun n => toBar (blankNet n))) = barsMax (B.map toBar) := by
  unfold barsMax
  rw [List.map_map, List.map_map]
  rfl

theorem countLt_barRow_size_eq (M : JNum) (d1 d0 : BarDatum)
    (h : d1.size = d0.size) :
    countLt (barRow M d1) = countLt (barRow M d0) := by
  unfold barRow
  rw [h]
  simp [countLt_append, countLt_esc]

theorem countLt_drawBars_blank (B : List NetReq) :
    countLt (drawBars (B.map (fun n => toBar (blankNet n))))
      = countLt (drawBars (B.map toBar)) := by
  unfold drawBars
  rw [barsMax_map_blank B, List.map_map, List.map_map]
  exact countLt_concatAll_map B _ _
    (fun n _ => countLt_barRow_size_eq _ _ _ (toBar_blankNet_size n))

/-- Claim C1 amended: the fields listed below pass through `esc` and so can
never contribute a literal `<` to the markup — blanking all of them leaves
the number of `<` characters of every fragment unchanged.  They are: the
nine metadata fields, the archive entry names, the check `category`,
`label`, `value` and `help` fields, the network `url`, `protocol`, `enc`
and `type` fields, and the chart labels.  `run_id`, the thumbnail `t_sec`
and `png_b64` fields, the check `status` class and the network `status`
cell are interpolated without escaping (see the counterexample), and the
numeric `size`/`compressed`/`bytes` fields pass through `bytes()` instead
of `esc`. -/
theorem c1_escaped_fields_lt_count (d : Doc) (name : String) (st : PageState)
    (_hu : netUrlsOk d) :
    countLt (renderAll (blankEsc d) name st).meta.innerHTML
      = countLt (renderAll d name st).meta.innerHTML ∧
    countLt (renderAll (blankEsc d) name st).archive.innerHTML
      = countLt (renderAll d name st).archive.innerHTML ∧
    countLt (renderAll (blankEsc d) name st).matrix.innerHTML
      = countLt (renderAll d name st).matrix.innerHTML ∧
    countLt (renderAll (blankEsc d) name st).network.innerHTML
      = countLt (renderAll d name st).network.innerHTML ∧
    countLt ((renderAll (blankEsc d) name st).netChart.getD "")
      = countLt ((renderAll d name st).netChart.getD "") := by
  cases hl : netOf d with
  | nil =>
    have hbl : netOf (blankEsc d) = [] := by
      rw [netOf_blankEsc, hl]
      rfl
    have hr : renderAll d name st =
        { st with
          meta := ⟨"block", metaHtml d name⟩
          archive := ⟨"block", archiveHtml d⟩
          matrix := ⟨"block", matrixHtml d⟩ } := by
      unfold renderAll
      rw [hl]
      rfl
    have hrb : renderAll (blankEsc d) name st =
        { st with
          meta := ⟨"block", metaHtml (blankEsc d) name⟩
          archive := ⟨"block", archiveHtml (blankEsc d)⟩
          matrix := ⟨"block", matrixHtml (blankEsc d)⟩ } := by
      unfold renderAll
      rw [hbl]
      rfl
    rw [hr, hrb]
    exact ⟨countLt_metaHtml d name, countLt_archiveHtml d,
      countLt_matrixHtml d, rfl, rfl⟩
  | cons a t =>
    have hbl : netOf (blankEsc d) = (a :: t).map blankNet := by
      rw [netOf_blankEsc, hl]
    have hr : renderAll d name st =
        { st with
          meta := ⟨"block", metaHtml d name⟩
          archive := ⟨"block", archiveHtml d⟩
          matrix := ⟨"block", matrixHtml d⟩
          network := ⟨"block", networkHtml (a :: t)⟩
          netChart := some (drawBars (((a :: t).map toBar).take 12)) } := by
      unfold renderAll
      rw [hl]
      rfl
    have hrb : renderAll (blankEsc d) name st =
        { st with
          meta := ⟨"block", metaHtml (blankEsc d) name⟩
          archive := ⟨"block", archiveHtml (blankEsc d)⟩
          matrix := ⟨"block", matrixHtml (blankEsc d)⟩
          network := ⟨"block", networkHtml ((a :: t).map blankNet)⟩
          netChart := some (drawBars ((((a :: t).map blankNet).map toBar).take 12)) } := by
      unfold renderAll
      rw [hbl]
      rfl
    rw [hr, hrb]
    refine ⟨countLt_metaHtml d name, countLt_archiveHtml d,
      countLt_matrixHtml d, countLt_networkHtml (a :: t), ?_⟩
    show countLt (drawBars ((((a :: t).map blankNet).map toBar).take 12))
      = countLt (drawBars (((a :: t).map toBar).take 12))
    rw [List.map_map, ← List.map_take, ← List.map_take]
    exact countLt_drawBars_blank ((a :: t).take 12)

/-- Substring test: `true` iff `pat` occurs contiguously in the list. -/
def hasSeg (pat : List Char) : List Char → Bool
  | [] => pat.isEmpty
  | c :: r => pat.isPrefixOf (c :: r) || hasSeg pat r

/-- Document whose `run_id` carries markup, for the C1 counterexample. -/
def docXss : Doc := { run_id := .vstr "<xss>" }

set_option maxRecDepth 40000 in
/-- Claim C1 as stated is false: `run_id` (and likewise the thumbnail
fields and the status fields) is interpolated into the metadata fragment
without passing through `esc` — the raw `<xss>` from the document appears
in the markup and its escaped form does not. -/
theorem c1_run_id_unescaped_cex :
    hasSeg "<xss>".data
      (renderAll docXss "ad.zip" clearedState).meta.innerHTML.data = true ∧
    hasSeg (esc (.vstr "<xss>")).data
      (renderAll docXss "ad.zip" clearedState).meta.innerHTML.data = false := by
  constructor
  · decide
  · decide

/-- Metadata carrying markup in an escaped field, for the C1 witness. -/
def metaW : Metadata := { scan_type := .vstr "<t>" }

/-- Document exercising escaped fields and a network entry, for the C1
witness. -/
def docW : Doc :=
  { run_id := .vstr "r1", metadata := some metaW, runtime := some runtime1 }

set_option maxRecDepth 40000 in
/-- Witness for the amended claim C1 at a concrete document. -/
theorem c1_escaped_fields_lt_count_witness :
    countLt (renderAll (blankEsc docW) "ad.zip" clearedState).meta.innerHTML
      = countLt (renderAll docW "ad.zip" clearedState).meta.innerHTML ∧
    0 < countLt (renderAll docW "ad.zip" clearedState).meta.innerHTML := by
  have hu : netUrlsOk docW := by
    intro n hn
    rw [show netOf docW = [netReq1] from rfl] at hn
    rw [List.mem_singleton] at hn
    subst hn
    exact Or.inl ⟨_, rfl⟩
  exact ⟨(c1_escaped_fields_lt_count docW "ad.zip" clearedState hu).1,
    by decide⟩
